import Mathlib

/-!
Verification of the prompt-format dispatch and conversation-to-prompt compilation
engine of vision_qna.py, together with the streaming pieces of the qwen2_5_vl
backend.  Python functions are shallowly embedded as Lean functions; a Python
runtime exception (IndexError, AttributeError, TypeError, NameError) is modelled
as the `none` branch of an `Option` result; the external image-loading capability
(url_to_image and friends) is modelled as an abstract function parameter
`urlH : String → β` so that theorems hold for every resolution behaviour.
Python list mutation of the callers `messages` argument is modelled by returning
the post-call state of that list as the last component of each format functions
result.
-/

namespace VisionQna

/-- The content-part type tag, pydantic field `type: Literal["text", "image_url"]`
(vision_qna.py line 27). -/
inductive ContentType
  | text
  | image_url
deriving DecidableEq, Repr

/-- pydantic model ImageURL (vision_qna.py lines 22-24). -/
structure ImageURL where
  url : String
  detail : Option String := some "auto"
deriving DecidableEq, Repr

/-- pydantic model Content (vision_qna.py lines 26-29).  Both optional fields are
kept because pydantic does not force exactly one of them to be set. -/
structure Content where
  type : ContentType
  text : Option String := none
  image_url : Option ImageURL := none
deriving DecidableEq, Repr

/-- The pydantic field `content: Union[str, List[Content]]` of Message
(vision_qna.py line 33). -/
inductive MsgContent
  | str (s : String)
  | parts (l : List Content)
deriving DecidableEq, Repr

/-- pydantic model Message (vision_qna.py lines 31-34). -/
structure Message where
  role : String
  content : MsgContent
  name : Option String := none
deriving DecidableEq, Repr

/-- Python f-string interpolation of an `Optional[str]` value: None renders as
the four-character string "None". -/
def pyStr : Option String → String
  | none => "None"
  | some s => s

/-- The expression `messages[-1].content[0].text` as read by the trailing-assistant
pop blocks.  `none` collects the exception paths: empty part list (IndexError),
bare-string content (a str has no `.text` attribute), and a None text field
(TypeError when the pop block concatenates it onto the generation message). -/
def firstContentText (m : Message) : Option String :=
  match m.content with
  | .parts (c :: _) => c.text
  | _ => none

/-- The three-line trailing-assistant pop block shared by the popping format
functions (for example vision_qna.py lines 436-438): when the last message has
role assistant, its first content text is removed into the continuation marker
and the message is popped off the callers list.  Returns
`some (popped text?, message list after the block)`; `none` models an exception
raised while reading `messages[-1].content[0].text`. -/
def extractTrailingAssistant (messages : List Message) :
    Option (Option String × List Message) :=
  match messages.getLast? with
  | none => some (none, messages)
  | some m =>
    if m.role = "assistant" then
      match firstContentText m with
      | none => none
      | some t => some (some t, messages.dropLast)
    else some (none, messages)

/-- The user-branch content loop shared by most format functions (for example
vision_qna.py lines 445-450): image parts resolve their url (failing when the
image_url field is absent) and append one image token; the last text part wins. -/
def collectUser {β : Type} (urlH : String → β) (img_tok : String) :
    List β × String × String → List Content → Option (List β × String × String)
  | acc, [] => some acc
  | (imgs, img_tag, text), c :: rest =>
    match c.type with
    | .image_url =>
      match c.image_url with
      | none => none
      | some iu => collectUser urlH img_tok (imgs ++ [urlH iu.url], img_tag ++ img_tok, text) rest
    | .text => collectUser urlH img_tok (imgs, img_tag, pyStr c.text) rest

/-- The image-only first content loop of the all-roles format functions (for
example vision_qna.py lines 418-421). -/
def collectImgs {β : Type} (urlH : String → β) (img_tok : String) :
    List β × String → List Content → Option (List β × String)
  | acc, [] => some acc
  | (imgs, img_tag), c :: rest =>
    match c.type with
    | .image_url =>
      match c.image_url with
      | none => none
      | some iu => collectImgs urlH img_tok (imgs ++ [urlH iu.url], img_tag ++ img_tok) rest
    | .text => collectImgs urlH img_tok (imgs, img_tag) rest

/-- A loop of the shape `for c in content: if c.type == "text": prompt += wrap(c.text)`
used by the assistant and system branches of the role-gated format functions. -/
def textLoop (wrap : String → String) (cs : List Content) : String :=
  String.join (cs.map fun c => if c.type = ContentType.text then wrap (pyStr c.text) else "")

/-- Per-message body of the role-gated format functions (user / assistant / system
branches, other roles ignored).  `systemWrap = none` encodes a function with no
system branch (phintern).  A branch that iterates the content of a bare-string
message raises (str items have no `.type`), hence `none` there. -/
def roleGatedMsg {β : Type} (urlH : String → β) (img_tok : String)
    (userTmpl : String → String → String)
    (assistantWrap : String → String)
    (systemWrap : Option (String → String)) (m : Message) :
    Option (List β × String) :=
  if m.role = "user" then
    match m.content with
    | .str _ => none
    | .parts cs =>
      (collectUser urlH img_tok ([], "", "") cs).map
        fun acc => (acc.1, userTmpl acc.2.1 acc.2.2)
  else if m.role = "assistant" then
    match m.content with
    | .str _ => none
    | .parts cs => some ([], textLoop assistantWrap cs)
  else if m.role = "system" then
    match systemWrap with
    | none => some ([], "")
    | some w =>
      match m.content with
      | .str _ => none
      | .parts cs => some ([], textLoop w cs)
  else some ([], "")

/-- The per-message walk `for m in messages:` accumulating images and prompt in
order; the first exception aborts the whole call. -/
def walkMsgs {β : Type} (msgFn : Message → Option (List β × String)) :
    List Message → Option (List β × String)
  | [] => some ([], "")
  | m :: rest =>
    match msgFn m, walkMsgs msgFn rest with
    | some (i1, p1), some (i2, p2) => some (i1 ++ i2, p1 ++ p2)
    | _, _ => none

/-- Skeleton of the popping format functions: trailing-assistant pop, walk of the
remaining messages, then `prompt = pre ++ walk ++ base ++ popped-text`.  The last
component of the result is the callers message list after the call (the pop
mutates it in place). -/
def runPopWalk {β : Type} (msgFn : Message → Option (List β × String))
    (base pre : String) (messages : List Message) :
    Option (List β × String × List Message) :=
  match extractTrailingAssistant messages with
  | none => none
  | some (genOpt, rest) =>
    match walkMsgs msgFn rest with
    | none => none
    | some (imgs, p) => some (imgs, pre ++ p ++ (base ++ genOpt.getD ""), rest)

/-- Skeleton of the non-popping format functions (llama2, fuyu): plain walk, no
extraction, no generation append; the callers list is left unchanged. -/
def runWalk {β : Type} (msgFn : Message → Option (List β × String))
    (messages : List Message) : Option (List β × String × List Message) :=
  (walkMsgs msgFn messages).map fun r => (r.1, r.2, messages)

/-- chatml_prompt_from_messages (vision_qna.py lines 431-464) at its default
image token "<image>\n". -/
def chatml_prompt_from_messages {β : Type} (urlH : String → β)
    (messages : List Message) : Option (List β × String × List Message) :=
  runPopWalk
    (roleGatedMsg urlH "<image>\n"
      (fun img_tag text => "<|im_start|>user\n" ++ img_tag ++ text ++ "<|im_end|>")
      (fun t => "<|im_start|>assistant\n" ++ t ++ "<|im_end|>")
      (some fun t => "<|im_start|>system\n" ++ t ++ "<|im_end|>"))
    "<|im_start|>assistant\n" "" messages

/-- vicuna0_prompt_from_messages (vision_qna.py lines 307-340) at its default
image token "<image_placeholder>\n". -/
def vicuna0_prompt_from_messages {β : Type} (urlH : String → β)
    (messages : List Message) : Option (List β × String × List Message) :=
  runPopWalk
    (roleGatedMsg urlH "<image_placeholder>\n"
      (fun img_tag text => "### Human: " ++ img_tag ++ text ++ "\n")
      (fun t => "### Assistant: " ++ t ++ "\n")
      (some fun t => t ++ "\n\n"))
    "### Assistant:" "" messages

/-- vicuna_prompt_from_messages (vision_qna.py lines 343-376) at its default
image token "<image>\n". -/
def vicuna_prompt_from_messages {β : Type} (urlH : String → β)
    (messages : List Message) : Option (List β × String × List Message) :=
  runPopWalk
    (roleGatedMsg urlH "<image>\n"
      (fun img_tag text => "USER: " ++ img_tag ++ text ++ "\n")
      (fun t => "ASSISTANT: " ++ t ++ "\n")
      (some fun t => t ++ "\n\n"))
    "ASSISTANT:" "" messages

/-- llama2_prompt_from_messages (vision_qna.py lines 378-404): no trailing pop and
no generation append. -/
def llama2_prompt_from_messages {β : Type} (urlH : String → β)
    (messages : List Message) : Option (List β × String × List Message) :=
  runWalk
    (roleGatedMsg urlH "<image>\n"
      (fun img_tag text => "[INST] " ++ img_tag ++ text ++ " [/INST]")
      (fun t => " " ++ t)
      (some fun t => "[INST] <<SYS>>\n" ++ t ++ "\n<</SYS>> [/INST]"))
    messages

/-- gemma_prompt_from_messages (vision_qna.py lines 466-500) at its default image
token "<image>\n". -/
def gemma_prompt_from_messages {β : Type} (urlH : String → β)
    (messages : List Message) : Option (List β × String × List Message) :=
  runPopWalk
    (roleGatedMsg urlH "<image>\n"
      (fun img_tag text => "<start_of_turn>user\n" ++ img_tag ++ text ++ "<end_of_turn>")
      (fun t => "<start_of_turn>model\n" ++ t ++ "<end_of_turn>")
      (some fun t => "<start_of_turn>system\n" ++ t ++ "<end_of_turn>"))
    "<start_of_turn>model\n" "" messages

/-- phintern_prompt_from_messages (vision_qna.py lines 592-621): no system branch
at all, so system messages contribute nothing and their content is never read. -/
def phintern_prompt_from_messages {β : Type} (urlH : String → β)
    (messages : List Message) : Option (List β × String × List Message) :=
  runPopWalk
    (roleGatedMsg urlH "<image>\n"
      (fun img_tag text => "<s><|user|>\n" ++ img_tag ++ text ++ "<|end|>")
      (fun t => "<s><|assistant|>\n" ++ t ++ "<|end|>")
      none)
    "<s><|assistant|>\n" "" messages

/-- falcon_prompt_from_messages (vision_qna.py lines 623-656) at its default image
token "<image>\n". -/
def falcon_prompt_from_messages {β : Type} (urlH : String → β)
    (messages : List Message) : Option (List β × String × List Message) :=
  runPopWalk
    (roleGatedMsg urlH "<image>\n"
      (fun img_tag text => "User:" ++ img_tag ++ text ++ " ")
      (fun t => "Falcon:" ++ t)
      (some fun t => t ++ "\n\n"))
    "Falcon:" "" messages

/-- The user-branch loop of the question-answer style functions phi15 and fuyu
(vision_qna.py lines 285-293 and 508-515): an image part prepends `imgPre` in
front of the accumulated text (and appends `imgPos` after it), a text part
appends the text plus a blank line.  At the default arguments of phi15 the
format call `img_tok.format(img_data)` is the identity on the token "<image>";
for fuyu both token strings are empty. -/
def qaUserLoop {β : Type} (urlH : String → β) (imgPre imgPos : String) :
    List β × String → List Content → Option (List β × String)
  | acc, [] => some acc
  | (imgs, p), c :: rest =>
    match c.type with
    | .image_url =>
      match c.image_url with
      | none => none
      | some iu => qaUserLoop urlH imgPre imgPos (imgs ++ [urlH iu.url], imgPre ++ p ++ imgPos) rest
    | .text => qaUserLoop urlH imgPre imgPos (imgs, p ++ pyStr c.text ++ "\n\n") rest

/-- Per-message body of the question-answer style functions phi15 and fuyu. -/
def qaMsg {β : Type} (urlH : String → β) (imgPre imgPos : String)
    (assistantWrap systemWrap : String → String) (m : Message) :
    Option (List β × String) :=
  if m.role = "user" then
    match m.content with
    | .str _ => none
    | .parts cs => qaUserLoop urlH imgPre imgPos ([], "") cs
  else if m.role = "assistant" then
    match m.content with
    | .str _ => none
    | .parts cs => some ([], textLoop assistantWrap cs)
  else if m.role = "system" then
    match m.content with
    | .str _ => none
    | .parts cs => some ([], textLoop systemWrap cs)
  else some ([], "")

/-- phi15_prompt_from_messages (vision_qna.py lines 274-305) at its default
arguments. -/
def phi15_prompt_from_messages {β : Type} (urlH : String → β)
    (messages : List Message) : Option (List β × String × List Message) :=
  runPopWalk
    (qaMsg urlH "<image>" ""
      (fun t => "Answer: " ++ t ++ "\n\n")
      (fun t => t ++ "\n\n"))
    "Answer:" "" messages

/-- fuyu_prompt_from_messages (vision_qna.py lines 502-525): empty image tokens,
no trailing pop and no generation append. -/
def fuyu_prompt_from_messages {β : Type} (urlH : String → β)
    (messages : List Message) : Option (List β × String × List Message) :=
  runWalk
    (qaMsg urlH "" ""
      (fun t => "\x04" ++ t ++ "\n")
      (fun t => t ++ "\n\n"))
    messages

/-- A fallible text loop for the all-roles format functions: per text part the
piece builder may raise (llama3 calls `.strip()` on a possibly-None text). -/
def textLoopFallible (piece : Option String → Option String) :
    List Content → Option String
  | [] => some ""
  | c :: rest =>
    if c.type = ContentType.text then
      match piece c.text with
      | none => none
      | some s => (textLoopFallible piece rest).map (s ++ ·)
    else textLoopFallible piece rest

/-- Per-message body of the all-roles format functions llama3, phi3 and glm4v
(vision_qna.py lines 415-425, 575-586, 697-710): a first loop collects every
image part of the message regardless of role, a second loop emits one templated
block per text part. -/
def allRolesMsg {β : Type} (urlH : String → β) (img_tok : String)
    (piece : String → String → Option String → Option String) (m : Message) :
    Option (List β × String) :=
  match m.content with
  | .str _ => none
  | .parts cs =>
    match collectImgs urlH img_tok ([], "") cs with
    | none => none
    | some (imgs, img_tag) =>
      (textLoopFallible (piece m.role img_tag) cs).map fun p => (imgs, p)

/-- llama3_prompt_from_messages (vision_qna.py lines 406-429): `c.text.strip()`
raises on a None text, modelled with String.trim. -/
def llama3_prompt_from_messages {β : Type} (urlH : String → β)
    (messages : List Message) : Option (List β × String × List Message) :=
  runPopWalk
    (allRolesMsg urlH "<image>" fun role img_tag txt =>
      match txt with
      | none => none
      | some t => some ("<|start_header_id|>" ++ role ++ "<|end_header_id|>\n\n"
          ++ img_tag ++ t.trim ++ "<|eot_id|>"))
    "<|start_header_id|>assistant<|end_header_id|>\n\n" "" messages

/-- phi3_prompt_from_messages (vision_qna.py lines 565-590) at its default image
token, on which `img_tok.format(n)` is the identity. -/
def phi3_prompt_from_messages {β : Type} (urlH : String → β)
    (messages : List Message) : Option (List β × String × List Message) :=
  runPopWalk
    (allRolesMsg urlH "<image>\n" fun role img_tag txt =>
      some ("<|" ++ role ++ "|>\n" ++ img_tag ++ pyStr txt ++ "<|end|>\n"))
    "<|assistant|>\n" "" messages

/-- glm4v_prompt_from_messages (vision_qna.py lines 688-714): the prompt starts
with the fixed "[gMASK]<sop>" header and the metadata slot is always empty. -/
def glm4v_prompt_from_messages {β : Type} (urlH : String → β)
    (messages : List Message) : Option (List β × String × List Message) :=
  runPopWalk
    (allRolesMsg urlH "<|begin_of_image|><|endoftext|><|end_of_image|>"
      fun role img_tag txt => some ("<|" ++ role ++ "|>" ++ "\n" ++ img_tag ++ pyStr txt))
    "<|assistant|>\n" "[gMASK]<sop>" messages

/-- The image loop of florence_prompt_from_messages (vision_qna.py lines 720-723):
every image part of every message is resolved, in order. -/
def florenceImgs {β : Type} (urlH : String → β) :
    List β → List Content → Option (List β)
  | imgs, [] => some imgs
  | imgs, c :: rest =>
    match c.type with
    | .image_url =>
      match c.image_url with
      | none => none
      | some iu => florenceImgs urlH (imgs ++ [urlH iu.url]) rest
    | .text => florenceImgs urlH imgs rest

/-- The text loop of florence_prompt_from_messages (vision_qna.py lines 725-727):
each truthy text part replaces the prompt outright (only one command at a time). -/
def florenceText : String → List Content → String
  | prompt, [] => prompt
  | prompt, c :: rest =>
    florenceText
      (if c.type = ContentType.text then
        match c.text with
        | some t => if t = "" then prompt else t
        | none => prompt
      else prompt) rest

/-- The message walk of florence_prompt_from_messages. -/
def florenceWalk {β : Type} (urlH : String → β) :
    List β → String → List Message → Option (List β × String)
  | imgs, prompt, [] => some (imgs, prompt)
  | imgs, prompt, m :: rest =>
    match m.content with
    | .str _ => none
    | .parts cs =>
      match florenceImgs urlH imgs cs with
      | none => none
      | some imgs1 => florenceWalk urlH imgs1 (florenceText prompt cs) rest

/-- florence_prompt_from_messages (vision_qna.py lines 716-729): starts from the
fixed caption command, no pop, no generation append. -/
def florence_prompt_from_messages {β : Type} (urlH : String → β)
    (messages : List Message) : Option (List β × String × List Message) :=
  (florenceWalk urlH [] "<MORE_DETAILED_CAPTION>" messages).map
    fun r => (r.1, r.2, messages)

/-- The second pop of pixtral_prompt_from_messages (vision_qna.py lines 743-745):
a then-trailing user message is popped and its first content text kept; a missing
first part raises at once, while a None text only raises later when the dead
last_message string is assembled. -/
def popTrailingUser (messages : List Message) :
    Option (Option (Option String) × List Message) :=
  match messages.getLast? with
  | none => some (none, messages)
  | some m =>
    if m.role = "user" then
      match m.content with
      | .parts (c :: _) => some (some c.text, messages.dropLast)
      | _ => none
    else some (none, messages)

/-- Per-message body of pixtral_prompt_from_messages (vision_qna.py lines
747-767): the user template places the text before the image tags; the system
branch raises on its first text part because it concatenates onto a None
system_prompt. -/
def pixtralMsg {β : Type} (urlH : String → β) (m : Message) :
    Option (List β × String) :=
  if m.role = "user" then
    match m.content with
    | .str _ => none
    | .parts cs =>
      (collectUser urlH "[IMG]" ([], "", "") cs).map
        fun acc => (acc.1, "[INST] " ++ acc.2.2 ++ acc.2.1 ++ " [/INST]")
  else if m.role = "assistant" then
    match m.content with
    | .str _ => none
    | .parts cs => some ([], textLoop (fun t => " " ++ t) cs)
  else if m.role = "system" then
    match m.content with
    | .str _ => none
    | .parts cs =>
      if cs.any (fun c => decide (c.type = ContentType.text)) then none
      else some ([], "")
  else some ([], "")

/-- pixtral_prompt_from_messages (vision_qna.py lines 731-780): after the two
pops the remaining messages are walked; the last_message string built from the
popped user text is dead code except that concatenating a None text raises; the
returned prompt is "<s>" plus the walk plus the raw continuation text. -/
def pixtral_prompt_from_messages {β : Type} (urlH : String → β)
    (messages : List Message) : Option (List β × String × List Message) :=
  match extractTrailingAssistant messages with
  | none => none
  | some (genOpt, rest1) =>
    match popTrailingUser rest1 with
    | none => none
    | some (lastOpt, rest2) =>
      match walkMsgs (pixtralMsg urlH) rest2 with
      | none => none
      | some (imgs, p) =>
        match lastOpt with
        | some none => none
        | _ => some (imgs, "<s>" ++ p ++ genOpt.getD "", rest2)

/-- The static format registry known_formats (vision_qna.py lines 813-829). -/
def known_formats (β : Type) :
    List (String × ((String → β) → List Message → Option (List β × String × List Message))) :=
  [("chatml", chatml_prompt_from_messages),
   ("falcon", falcon_prompt_from_messages),
   ("florence", florence_prompt_from_messages),
   ("fuyu", fuyu_prompt_from_messages),
   ("gemma", gemma_prompt_from_messages),
   ("glm4v", glm4v_prompt_from_messages),
   ("llama2", llama2_prompt_from_messages),
   ("llama3", llama3_prompt_from_messages),
   ("mistral", llama2_prompt_from_messages),
   ("phi15", phi15_prompt_from_messages),
   ("phi3", phi3_prompt_from_messages),
   ("phintern", phintern_prompt_from_messages),
   ("pixtral", pixtral_prompt_from_messages),
   ("vicuna", vicuna_prompt_from_messages),
   ("vicuna0", vicuna0_prompt_from_messages)]

/-- prompt_from_messages (vision_qna.py lines 812-834): dispatch through the
static registry; an unknown name raises ValueError naming the format, a known
name invokes the registered transformation. -/
def prompt_from_messages {β : Type} (urlH : String → β)
    (messages : List Message) (format : String) :
    Except String (Option (List β × String × List Message)) :=
  match (known_formats β).lookup format with
  | none => .error ("Unknown format: " ++ format)
  | some f => .ok (f urlH messages)

/-! Claim-side measurements: the image_url parts of a message list and the order
of their urls, and the message list remaining after trailing-assistant
extraction.  These are the quantities the spec speaks about. -/

/-- All content parts of a message whose type tag is image_url. -/
def msgImageParts (m : Message) : List Content :=
  match m.content with
  | .str _ => []
  | .parts l => l.filter fun c => decide (c.type = ContentType.image_url)

/-- The urls of the image parts of a part list, in order; parts whose image_url
field is absent contribute nothing (every format function raises on them). -/
def contentImageURLs (cs : List Content) : List String :=
  cs.filterMap fun c =>
    match c.type, c.image_url with
    | .image_url, some iu => some iu.url
    | _, _ => none

/-- The urls of the image parts of a message, in order. -/
def msgImageURLs (m : Message) : List String :=
  match m.content with
  | .str _ => []
  | .parts cs => contentImageURLs cs

/-- The urls of all image parts of a message list, in first-encounter order. -/
def allImageURLs (ms : List Message) : List String :=
  ms.flatMap msgImageURLs

/-- All image parts of a message list, in order. -/
def allImageParts (ms : List Message) : List Content :=
  ms.flatMap msgImageParts

/-- The message list remaining after trailing-assistant extraction: the spec
drops the last message exactly when its role is assistant. -/
def messagesAfterExtraction (ms : List Message) : List Message :=
  match ms.getLast? with
  | none => ms
  | some m => if m.role = "assistant" then ms.dropLast else ms

/-- The concrete message list of the end-to-end chatml example: a system message
with the single text "Be terse." and a user message with one data-uri image part
followed by the text "What is this?". -/
def chatmlExampleMsgs : List Message :=
  [{ role := "system", content := .parts [{ type := .text, text := some "Be terse." }] },
   { role := "user", content := .parts
      [{ type := .image_url, image_url := some { url := "data:image/png;base64,AA==" } },
       { type := .text, text := some "What is this?" }] }]

/-- C1: for the chatml format applied to the two example messages, the images
list is exactly the one resolved image and the prompt starts with the system and
user blocks and ends with the assistant generation opening. -/
theorem chatml_example_end_to_end :
    ∀ (β : Type) (urlH : String → β),
      chatml_prompt_from_messages urlH chatmlExampleMsgs =
        some ([urlH "data:image/png;base64,AA=="],
          "<|im_start|>system\nBe terse.<|im_end|><|im_start|>user\n<image>\nWhat is this?<|im_end|><|im_start|>assistant\n",
          chatmlExampleMsgs) ∧
      (∃ r, "<|im_start|>system\nBe terse.<|im_end|><|im_start|>user\n<image>\nWhat is this?<|im_end|><|im_start|>assistant\n"
          = "<|im_start|>system\nBe terse.<|im_end|><|im_start|>user\n<image>\nWhat is this?<|im_end|>" ++ r) ∧
      (∃ l, "<|im_start|>system\nBe terse.<|im_end|><|im_start|>user\n<image>\nWhat is this?<|im_end|><|im_start|>assistant\n"
          = l ++ "<|im_start|>assistant\n") := by
  intro β urlH
  refine ⟨rfl, ⟨"<|im_start|>assistant\n", rfl⟩,
    ⟨"<|im_start|>system\nBe terse.<|im_end|><|im_start|>user\n<image>\nWhat is this?<|im_end|>", rfl⟩⟩

/-- A lookup on an association list whose keys avoid `k` yields nothing. -/
theorem lookup_eq_none_of_not_mem_keys {α γ : Type} [BEq α] [LawfulBEq α]
    (l : List (α × γ)) (k : α) (h : k ∉ l.map Prod.fst) : l.lookup k = none := by
  induction l with
  | nil => rfl
  | cons p t ih =>
    simp only [List.map_cons, List.mem_cons, not_or] at h
    have hk : (k == p.1) = false := by
      exact beq_false_of_ne h.1
    cases p with
    | mk a b =>
      simp only [List.lookup] at *
      rw [hk]
      exact ih h.2

/-- C4: dispatch through the static registry fails on a name absent from the
registry with an error string that names the offending identifier, and invokes
the registered transformation on a name present in the registry. -/
theorem dispatch_unknown_named_known_invoked :
    ∀ (β : Type) (urlH : String → β) (ms : List Message) (format : String),
      (format ∉ (known_formats β).map Prod.fst →
        prompt_from_messages urlH ms format = .error ("Unknown format: " ++ format) ∧
        ∃ l r : List Char,
          ("Unknown format: " ++ format).data = l ++ format.data ++ r) ∧
      (∀ f, (known_formats β).lookup format = some f →
        prompt_from_messages urlH ms format = .ok (f urlH ms)) := by
  intro β urlH ms format
  constructor
  · intro h
    have hl : (known_formats β).lookup format = none :=
      lookup_eq_none_of_not_mem_keys _ _ h
    constructor
    · simp only [prompt_from_messages, hl]
    · exact ⟨("Unknown format: ").data, [], by simp⟩
  · intro f hf
    simp only [prompt_from_messages, hf]

/-- Witness for C4: the name "not-a-format" is absent from the registry and is
named by the resulting error; the name "chatml" is present and dispatch invokes
chatml_prompt_from_messages. -/
theorem dispatch_unknown_named_known_invoked_witness :
    prompt_from_messages (fun s => s) [] "not-a-format" =
      .error "Unknown format: not-a-format" ∧
    prompt_from_messages (fun s => s) [] "chatml" =
      .ok (chatml_prompt_from_messages (fun s => s) []) := by
  constructor
  · exact (dispatch_unknown_named_known_invoked String (fun s => s) [] "not-a-format").1
      (by decide) |>.1
  · exact (dispatch_unknown_named_known_invoked String (fun s => s) [] "chatml").2
      (chatml_prompt_from_messages) rfl

/-- The request model ImageChatRequest (vision_qna.py lines 36-60), restricted to
the fields the verified components read; the floating-point sampling fields are
outside the embedding. -/
structure ImageChatRequest where
  messages : List Message
  model : String
  max_tokens : Nat := 512
  max_completion_tokens : Nat := 1024
  stream : Bool := false
deriving DecidableEq, Repr

/-- The per-message body of repack_message_content: a bare-string content becomes
the single-element part list with that text, a part list is left alone. -/
def repackContent : MsgContent → MsgContent
  | .str s => .parts [{ type := .text, text := some s }]
  | .parts l => .parts l

/-- The per-message rewrite of repack_message_content. -/
def repackMsg (m : Message) : Message :=
  { m with content := repackContent m.content }

/-- repack_message_content (vision_qna.py lines 123-130): every message whose
content is a bare string is rewritten to a single text part. -/
def repack_message_content (r : ImageChatRequest) : ImageChatRequest :=
  { r with messages := r.messages.map repackMsg }

/-- C7: normalization rewrites exactly the bare-string contents to a one-element
text part list, changes no other field of any message or of the request, keeps
message order (it is a map over the list), and is idempotent. -/
theorem repack_normalizes_frame_and_idempotent :
    ∀ (r : ImageChatRequest),
      (repack_message_content r).messages = r.messages.map repackMsg ∧
      (repack_message_content r).model = r.model ∧
      (repack_message_content r).max_tokens = r.max_tokens ∧
      (repack_message_content r).max_completion_tokens = r.max_completion_tokens ∧
      (repack_message_content r).stream = r.stream ∧
      (∀ m : Message, (repackMsg m).role = m.role ∧ (repackMsg m).name = m.name) ∧
      (∀ (m : Message) (s : String), m.content = .str s →
        (repackMsg m).content = .parts [{ type := .text, text := some s }]) ∧
      (∀ (m : Message) (l : List Content), m.content = .parts l → repackMsg m = m) ∧
      repack_message_content (repack_message_content r) = repack_message_content r := by
  intro r
  refine ⟨rfl, rfl, rfl, rfl, rfl, fun m => ⟨rfl, rfl⟩, ?_, ?_, ?_⟩
  · intro m s h
    simp [repackMsg, repackContent, h]
  · intro m l h
    cases m with
    | mk role content name =>
      cases h
      rfl
  · cases r with
    | mk msgs model mt mct st =>
      simp only [repack_message_content, List.map_map, ImageChatRequest.mk.injEq,
        and_true, true_and]
      apply List.map_congr_left
      intro m _
      cases m with
      | mk role content name =>
        cases content <;> rfl

/-- Witness for C7: a request with one bare-string message and one already
structured message is normalized as stated. -/
theorem repack_normalizes_frame_and_idempotent_witness :
    (repackMsg { role := "user", content := .str "hi" }).content =
      .parts [{ type := .text, text := some "hi" }] ∧
    repackMsg { role := "system", content := .parts [{ type := .text, text := some "s" }] } =
      { role := "system", content := .parts [{ type := .text, text := some "s" }] } := by
  constructor
  · exact (repack_normalizes_frame_and_idempotent
      { messages := [], model := "m" }).2.2.2.2.2.2.1
      { role := "user", content := .str "hi" } "hi" rfl
  · exact (repack_normalizes_frame_and_idempotent
      { messages := [], model := "m" }).2.2.2.2.2.2.2.1
      { role := "system", content := .parts [{ type := .text, text := some "s" }] }
      [{ type := .text, text := some "s" }] rfl

/-- Python str.startswith, on the character sequences of the two strings. -/
def pyStartsWith (s pre : String) : Bool :=
  pre.data.isPrefixOf s.data

/-- url_to_image (vision_qna.py lines 200-208): a url starting with "http" is
fetched, a url starting with "data:" is decoded from the data uri, and any other
url reaches `Image.open` with the local variable img_data unbound, raising
NameError, modelled as `none`.  The network fetch, the data-uri decoding and the
RGB conversion are external capabilities passed as parameters. -/
def url_to_image {γ β : Type} (fetchContent dataURIData : String → γ)
    (openRGB : γ → β) (img_url : String) : Option β :=
  if pyStartsWith img_url "http" then some (openRGB (fetchContent img_url))
  else if pyStartsWith img_url "data:" then some (openRGB (dataURIData img_url))
  else none

/-- C9: url_to_image produces an image only for urls starting with "http" or
"data:"; every other url fails before any image data branch is taken. -/
theorem url_to_image_only_http_or_data :
    ∀ (γ β : Type) (fetchContent dataURIData : String → γ) (openRGB : γ → β)
      (img_url : String),
      pyStartsWith img_url "http" = false →
      pyStartsWith img_url "data:" = false →
      url_to_image fetchContent dataURIData openRGB img_url = none := by
  intro γ β f d o u h1 h2
  simp [url_to_image, h1, h2]

/-- Witness for C9: an ftp url and a plain file path both fail. -/
theorem url_to_image_only_http_or_data_witness :
    url_to_image (fun s => s) (fun s => s) (fun s => s) "ftp://example.com/cat.png" = none ∧
    url_to_image (fun s => s) (fun s => s) (fun s => s) "/tmp/cat.png" = none := by
  constructor
  · exact url_to_image_only_http_or_data String String (fun s => s) (fun s => s)
      (fun s => s) "ftp://example.com/cat.png" (by decide) (by decide)
  · exact url_to_image_only_http_or_data String String (fun s => s) (fun s => s)
      (fun s => s) "/tmp/cat.png" (by decide) (by decide)

/-- A run of the producing worker inside threaded_streaming_generator
(vision_qna.py lines 165-190): the text fragments the generate call pushed into
the streamer, in emission order, and the exception it raised afterwards, if any.
The hand-off channel is a FIFO queue, so the fragments reach the consumer in
this order and the end sentinel comes after all of them. -/
structure ProducerRun (ε : Type) where
  fragments : List String
  error : Option ε
deriving DecidableEq, Repr

/-- The state the wrapper thread (lines 172-180) leaves behind: the channel
holds every fragment, in order, followed by the end sentinel (the streamer ends
both on normal completion and, via streamer.end(), after the exception was put
on exq), and exq holds the captured exception if one was raised. -/
def wrapperRun {ε : Type} (r : ProducerRun ε) : List (Option String) × List ε :=
  (r.fragments.map some ++ [none], r.error.toList)

/-- The consumer loop `for text in streamer: if text: yield text` (lines
185-187): fragments are yielded in channel order, empty ones skipped, until the
end sentinel. -/
def drainStreamer : List (Option String) → List String
  | [] => []
  | none :: _ => []
  | some t :: rest => if t = "" then drainStreamer rest else t :: drainStreamer rest

/-- threaded_streaming_generator (vision_qna.py lines 165-190), linearized: the
first component is the sequence of fragments yielded to the consumer, in order;
the second is the exception re-raised afterwards (lines 189-190), raised only
once the channel has been fully drained. -/
def threaded_streaming_generator {ε : Type} (r : ProducerRun ε) :
    List String × Option ε :=
  ((wrapperRun r).1 |> drainStreamer, (wrapperRun r).2.head?)

/-- Draining a channel of nonempty fragments followed by the end sentinel yields
exactly those fragments. -/
theorem drainStreamer_all (fs : List String) (h : ∀ f ∈ fs, f ≠ "") :
    drainStreamer (fs.map some ++ [none]) = fs := by
  induction fs with
  | nil => rfl
  | cons a t ih =>
    have ha : a ≠ "" := h a (List.mem_cons_self a t)
    simp only [List.map_cons, List.cons_append, drainStreamer, if_neg ha,
      List.append_eq]
    rw [ih (fun f hf => h f (List.mem_cons_of_mem a hf))]

/-- C5: a producer that emits text fragments and then raises is observed by the
consumer as exactly those fragments, in emission order, followed by the raised
exception; the exception is neither lost nor delivered ahead of any fragment. -/
theorem streaming_drains_then_raises :
    ∀ (ε : Type) (r : ProducerRun ε) (e : ε),
      r.error = some e →
      (∀ f ∈ r.fragments, f ≠ "") →
      threaded_streaming_generator r = (r.fragments, some e) := by
  intro ε r e herr hne
  simp only [threaded_streaming_generator, wrapperRun, herr, Option.toList_some,
    List.head?_cons]
  rw [drainStreamer_all r.fragments hne]

/-- Witness for C5: a producer that emits "partial" and then raises the error 7
is observed as "partial" and then that error. -/
theorem streaming_drains_then_raises_witness :
    threaded_streaming_generator { fragments := ["partial"], error := some 7 } =
      (["partial"], some 7) := by
  exact streaming_drains_then_raises Nat
    { fragments := ["partial"], error := some 7 } 7 rfl (by decide)

/-- Least index at which `sub` occurs inside the list, scanning left to right. -/
def listFind (sub : List Char) : List Char → Option Nat
  | [] => if sub.isPrefixOf ([] : List Char) then some 0 else none
  | a :: rest =>
    if sub.isPrefixOf (a :: rest) then some 0
    else (listFind sub rest).map (· + 1)

/-- Python str.find on character sequences: the index of the first occurrence of
`sub` in `s`, with `none` for the -1 answer. -/
def pyFind (s sub : String) : Option Nat :=
  listFind sub.data s.data

/-- The consumer loop of stream_chat_with_images (backend/qwen2_5_vl.py lines
74-80): each fragment is scanned for the end-of-sequence marker; a fragment
without the marker is yielded unchanged, the first fragment with the marker
yields only the part preceding it and the loop breaks. -/
def stream_chat_eos_truncate (eos : String) : List String → List String
  | [] => []
  | t :: rest =>
    match pyFind t eos with
    | none => t :: stream_chat_eos_truncate eos rest
    | some i => [t.take i]

/-- C6: for every fragment sequence in which the marker first occurs inside
fragment `t` at index `i`, the consumer yields the preceding fragments
unchanged, then the prefix of `t` before the marker, and nothing at all from
the fragments after `t`. -/
theorem eos_truncation_yields_prefix_then_stops :
    ∀ (eos : String) (pre : List String) (t : String) (i : Nat) (post : List String),
      (∀ f ∈ pre, pyFind f eos = none) →
      pyFind t eos = some i →
      stream_chat_eos_truncate eos (pre ++ t :: post) = pre ++ [t.take i] := by
  intro eos pre t i post hpre ht
  induction pre with
  | nil => simp [stream_chat_eos_truncate, ht]
  | cons a rest ih =>
    have ha : pyFind a eos = none := hpre a (List.mem_cons_self a rest)
    simp only [List.cons_append, stream_chat_eos_truncate, ha, List.append_eq]
    rw [ih (fun f hf => hpre f (List.mem_cons_of_mem a hf))]

/-- Witness for C6: the producer fragments "hello ", "world<EOS>", "ignored"
yield exactly "hello " and "world"; "ignored" is never yielded. -/
theorem eos_truncation_yields_prefix_then_stops_witness :
    stream_chat_eos_truncate "<EOS>" ["hello ", "world<EOS>", "ignored"] =
      ["hello ", "world"] := by
  have h := eos_truncation_yields_prefix_then_stops "<EOS>" ["hello "]
    "world<EOS>" 5 ["ignored"] (by decide) (by decide)
  simpa using h

/-- A content entry of the message dicts built by the qwen2_5_vl backend
(backend/qwen2_5_vl.py lines 41-51). -/
inductive QwenPart
  | image (url : String)
  | text (t : Option String)
deriving DecidableEq, Repr

/-- A message dict built by the qwen2_5_vl backend. -/
structure QwenMsg where
  role : String
  content : List QwenPart
deriving DecidableEq, Repr

/-- The user branch of the qwen2_5_vl message loop (lines 41-48): image parts
keep their url (raising when the image_url field is absent), text parts keep
their possibly-None text.  The video branch is unreachable because the pydantic
type tag only allows text and image_url. -/
def qwenUserContent : List Content → Option (List QwenPart)
  | [] => some []
  | c :: rest =>
    match c.type with
    | .image_url =>
      match c.image_url with
      | none => none
      | some iu => (qwenUserContent rest).map (QwenPart.image iu.url :: ·)
    | .text => (qwenUserContent rest).map (QwenPart.text c.text :: ·)

/-- The join `"".join([c.text for c in m.content])` of the non-user branch (line
50): every part contributes its text field, and a missing text raises. -/
def qwenJoinTexts : List Content → Option String
  | [] => some ""
  | c :: rest =>
    match c.text with
    | none => none
    | some t => (qwenJoinTexts rest).map (t ++ ·)

/-- One iteration of the qwen2_5_vl message loop (lines 39-53): user messages
keep their parts, every other role is collapsed to a single text entry holding
the separator-free concatenation of all its text fields. -/
def qwenMsg (m : Message) : Option QwenMsg :=
  if m.role = "user" then
    match m.content with
    | .str _ => none
    | .parts cs => (qwenUserContent cs).map fun content => ⟨m.role, content⟩
  else
    match m.content with
    | .str _ => none
    | .parts cs =>
      (qwenJoinTexts cs).map fun t => ⟨m.role, [QwenPart.text (some t)]⟩

/-- The message-construction phase of stream_chat_with_images
(backend/qwen2_5_vl.py lines 37-53). -/
def qwen_vl_messages : List Message → Option (List QwenMsg)
  | [] => some []
  | m :: rest =>
    match qwenMsg m with
    | none => none
    | some q => (qwen_vl_messages rest).map (q :: ·)

/-- The separator-free concatenation of the text fields of a part list, the
quantity the spec calls a single combined text block. -/
def textsConcat : List Content → String
  | [] => ""
  | c :: rest => (c.text.getD "") ++ textsConcat rest

/-- Joining text fields with the empty separator is plain concatenation. -/
theorem qwenJoinTexts_concat (cs : List Content)
    (h : ∀ c ∈ cs, c.text ≠ none) :
    qwenJoinTexts cs = some (textsConcat cs) := by
  induction cs with
  | nil => rfl
  | cons c rest ih =>
    have hc : c.text ≠ none := h c (List.mem_cons_self c rest)
    match hcc : c.text with
    | none => exact absurd hcc hc
    | some t =>
      simp only [qwenJoinTexts, hcc,
        ih (fun d hd => h d (List.mem_cons_of_mem c hd)), Option.map_some]
      simp [textsConcat, hcc]

/-- C8 counterexample: the chatml format function, on a system message carrying
the two text parts "A" and "B", wraps each part in its own system block instead
of concatenating them; the compiled prompt never contains the separator-free
concatenation "AB" (pyFind is Python str.find). -/
theorem multi_text_concat_counterexample :
    chatml_prompt_from_messages (fun s => s)
      [{ role := "system", content := .parts
          [{ type := .text, text := some "A" }, { type := .text, text := some "B" }] }] =
      some ([],
        "<|im_start|>system\nA<|im_end|><|im_start|>system\nB<|im_end|><|im_start|>assistant\n",
        [{ role := "system", content := .parts
            [{ type := .text, text := some "A" }, { type := .text, text := some "B" }] }]) ∧
    pyFind "<|im_start|>system\nA<|im_end|><|im_start|>system\nB<|im_end|><|im_start|>assistant\n" "AB" = none := by
  exact ⟨rfl, by decide⟩

/-- C8 amended: in the qwen2_5_vl backend, a non-user message whose parts all
carry a text field is compiled to a single text block that concatenates the
segments with no separator; the generic format functions such as chatml instead
emit one wrapped block per text part. -/
theorem qwen_multi_text_concatenated_no_separator :
    ∀ (role : String) (cs : List Content) (name : Option String),
      role ≠ "user" →
      (∀ c ∈ cs, c.text ≠ none) →
      qwenMsg { role := role, content := .parts cs, name := name } =
        some ⟨role, [QwenPart.text (some (textsConcat cs))]⟩ := by
  intro role cs name hrole htext
  simp only [qwenMsg, if_neg hrole, qwenJoinTexts_concat cs htext]
  rfl

/-- Witness for C8: a system message with the text parts "A" and "B" compiles to
the single combined block "AB". -/
theorem qwen_multi_text_concatenated_no_separator_witness :
    qwenMsg { role := "system", content := MsgContent.parts [{ type := .text, text := some "A" }, { type := .text, text := some "B" }] } =
      some ⟨"system", [QwenPart.text (some "AB")]⟩ := by
  have h := qwen_multi_text_concatenated_no_separator "system"
    [{ type := .text, text := some "A" }, { type := .text, text := some "B" }]
    none (by decide) (by decide)
  simpa using h

/-! Image-extraction lemmas: every content loop appends exactly the resolutions
of the image parts it scans, in encounter order. -/

theorem contentImageURLs_nil : contentImageURLs [] = [] := rfl

/-- A part list with no image-typed part has no image urls. -/
theorem contentImageURLs_eq_nil_of_no_image (cs : List Content)
    (h : cs.filter (fun c => decide (c.type = ContentType.image_url)) = []) :
    contentImageURLs cs = [] := by
  induction cs with
  | nil => rfl
  | cons c rest ih =>
    rw [List.filter_cons] at h
    cases htype : c.type with
    | image_url =>
      rw [htype] at h
      simp at h
    | text =>
      rw [htype] at h
      simp at h
      simp only [contentImageURLs, List.filterMap_cons, htype]
      simpa [contentImageURLs] using ih (by simpa using h)

/-- A message with no image parts has no image urls. -/
theorem msgImageURLs_eq_nil (m : Message) (h : msgImageParts m = []) :
    msgImageURLs m = [] := by
  cases hc : m.content with
  | str s => simp [msgImageURLs, hc]
  | parts cs =>
    simp only [msgImageParts, hc] at h
    simp only [msgImageURLs, hc]
    exact contentImageURLs_eq_nil_of_no_image cs h

theorem collectUser_images {β : Type} (urlH : String → β) (tok : String) :
    ∀ (cs : List Content) (acc res : List β × String × String),
      collectUser urlH tok acc cs = some res →
      res.1 = acc.1 ++ (contentImageURLs cs).map urlH := by
  intro cs
  induction cs with
  | nil =>
    intro acc res h
    simp only [collectUser, Option.some.injEq] at h
    subst h
    simp [contentImageURLs]
  | cons c rest ih =>
    intro acc res h
    obtain ⟨imgs, tag, text⟩ := acc
    cases htype : c.type with
    | image_url =>
      cases himg : c.image_url with
      | none => simp [collectUser, htype, himg] at h
      | some iu =>
        simp only [collectUser, htype, himg] at h
        have := ih _ _ h
        simp only [contentImageURLs, List.filterMap_cons, htype, himg] at *
        simpa using this
    | text =>
      simp only [collectUser, htype] at h
      have := ih _ _ h
      simp only [contentImageURLs, List.filterMap_cons, htype] at *
      simpa using this

theorem collectImgs_images {β : Type} (urlH : String → β) (tok : String) :
    ∀ (cs : List Content) (acc res : List β × String),
      collectImgs urlH tok acc cs = some res →
      res.1 = acc.1 ++ (contentImageURLs cs).map urlH := by
  intro cs
  induction cs with
  | nil =>
    intro acc res h
    simp only [collectImgs, Option.some.injEq] at h
    subst h
    simp [contentImageURLs]
  | cons c rest ih =>
    intro acc res h
    obtain ⟨imgs, tag⟩ := acc
    cases htype : c.type with
    | image_url =>
      cases himg : c.image_url with
      | none => simp [collectImgs, htype, himg] at h
      | some iu =>
        simp only [collectImgs, htype, himg] at h
        have := ih _ _ h
        simp only [contentImageURLs, List.filterMap_cons, htype, himg] at *
        simpa using this
    | text =>
      simp only [collectImgs, htype] at h
      have := ih _ _ h
      simp only [contentImageURLs, List.filterMap_cons, htype] at *
      simpa using this

theorem qaUserLoop_images {β : Type} (urlH : String → β) (imgPre imgPos : String) :
    ∀ (cs : List Content) (acc res : List β × String),
      qaUserLoop urlH imgPre imgPos acc cs = some res →
      res.1 = acc.1 ++ (contentImageURLs cs).map urlH := by
  intro cs
  induction cs with
  | nil =>
    intro acc res h
    simp only [qaUserLoop, Option.some.injEq] at h
    subst h
    simp [contentImageURLs]
  | cons c rest ih =>
    intro acc res h
    obtain ⟨imgs, p⟩ := acc
    cases htype : c.type with
    | image_url =>
      cases himg : c.image_url with
      | none => simp [qaUserLoop, htype, himg] at h
      | some iu =>
        simp only [qaUserLoop, htype, himg] at h
        have := ih _ _ h
        simp only [contentImageURLs, List.filterMap_cons, htype, himg] at *
        simpa using this
    | text =>
      simp only [qaUserLoop, htype] at h
      have := ih _ _ h
      simp only [contentImageURLs, List.filterMap_cons, htype] at *
      simpa using this

theorem florenceImgs_images {β : Type} (urlH : String → β) :
    ∀ (cs : List Content) (acc res : List β),
      florenceImgs urlH acc cs = some res →
      res = acc ++ (contentImageURLs cs).map urlH := by
  intro cs
  induction cs with
  | nil =>
    intro acc res h
    simp only [florenceImgs, Option.some.injEq] at h
    subst h
    simp [contentImageURLs]
  | cons c rest ih =>
    intro acc res h
    cases htype : c.type with
    | image_url =>
      cases himg : c.image_url with
      | none => simp [florenceImgs, htype, himg] at h
      | some iu =>
        simp only [florenceImgs, htype, himg] at h
        have := ih _ _ h
        simp only [contentImageURLs, List.filterMap_cons, htype, himg] at *
        simpa using this
    | text =>
      simp only [florenceImgs, htype] at h
      have := ih _ _ h
      simp only [contentImageURLs, List.filterMap_cons, htype] at *
      simpa using this

/-- The per-message image property: a successful message step yields exactly the
resolutions of the image urls of that message whenever non-user messages carry
no image parts. -/
def MsgImagesOK {β : Type} (urlH : String → β)
    (msgFn : Message → Option (List β × String)) : Prop :=
  ∀ (m : Message) (imgs : List β) (p : String),
    msgFn m = some (imgs, p) →
    (m.role ≠ "user" → msgImageParts m = []) →
    imgs = (msgImageURLs m).map urlH

theorem roleGatedMsg_imagesOK {β : Type} (urlH : String → β) (img_tok : String)
    (userTmpl : String → String → String) (assistantWrap : String → String)
    (systemWrap : Option (String → String)) :
    MsgImagesOK urlH (roleGatedMsg urlH img_tok userTmpl assistantWrap systemWrap) := by
  intro m imgs p hm hfree
  by_cases hu : m.role = "user"
  · cases hc : m.content with
    | str s => simp [roleGatedMsg, hu, hc] at hm
    | parts cs =>
      cases hcol : collectUser urlH img_tok ([], "", "") cs with
      | none => simp [roleGatedMsg, hu, hc, hcol] at hm
      | some acc =>
        simp [roleGatedMsg, hu, hc, hcol] at hm
        have himgs : acc.1 = [] ++ (contentImageURLs cs).map urlH :=
          collectUser_images urlH img_tok cs ([], "", "") acc hcol
        simp only [msgImageURLs, hc]
        rw [← hm.1]
        simpa using himgs
  · have hnil : msgImageURLs m = [] := msgImageURLs_eq_nil m (hfree hu)
    rw [hnil]
    simp only [List.map_nil]
    by_cases ha : m.role = "assistant"
    · cases hc : m.content with
      | str s => simp [roleGatedMsg, hu, ha, hc] at hm
      | parts cs =>
        simp [roleGatedMsg, hu, ha, hc] at hm
        first
        | exact hm.1
        | exact hm.1.symm
    · by_cases hs : m.role = "system"
      · cases systemWrap with
        | none =>
          simp [roleGatedMsg, hu, ha, hs] at hm
          first
          | exact hm.1
          | exact hm.1.symm
        | some w =>
          cases hc : m.content with
          | str s => simp [roleGatedMsg, hu, ha, hs, hc] at hm
          | parts cs =>
            simp [roleGatedMsg, hu, ha, hs, hc] at hm
            first
            | exact hm.1
            | exact hm.1.symm
      · simp [roleGatedMsg, hu, ha, hs] at hm
        first
        | exact hm.1
        | exact hm.1.symm

theorem qaMsg_imagesOK {β : Type} (urlH : String → β) (imgPre imgPos : String)
    (assistantWrap systemWrap : String → String) :
    MsgImagesOK urlH (qaMsg urlH imgPre imgPos assistantWrap systemWrap) := by
  intro m imgs p hm hfree
  by_cases hu : m.role = "user"
  · cases hc : m.content with
    | str s => simp [qaMsg, hu, hc] at hm
    | parts cs =>
      simp only [qaMsg, hc] at hm
      rw [if_pos hu] at hm
      have himgs : (imgs, p).1 = [] ++ (contentImageURLs cs).map urlH :=
        qaUserLoop_images urlH imgPre imgPos cs ([], "") (imgs, p) hm
      simp only [msgImageURLs, hc]
      simpa using himgs
  · have hnil : msgImageURLs m = [] := msgImageURLs_eq_nil m (hfree hu)
    rw [hnil]
    simp only [List.map_nil]
    by_cases ha : m.role = "assistant"
    · cases hc : m.content with
      | str s => simp [qaMsg, hu, ha, hc] at hm
      | parts cs =>
        simp [qaMsg, hu, ha, hc] at hm
        first
        | exact hm.1
        | exact hm.1.symm
    · by_cases hs : m.role = "system"
      · cases hc : m.content with
        | str s => simp [qaMsg, hu, ha, hs, hc] at hm
        | parts cs =>
          simp [qaMsg, hu, ha, hs, hc] at hm
          first
          | exact hm.1
          | exact hm.1.symm
      · simp [qaMsg, hu, ha, hs] at hm
        first
        | exact hm.1
        | exact hm.1.symm

theorem allRolesMsg_imagesOK {β : Type} (urlH : String → β) (img_tok : String)
    (piece : String → String → Option String → Option String) :
    MsgImagesOK urlH (allRolesMsg urlH img_tok piece) := by
  intro m imgs p hm _
  cases hc : m.content with
  | str s => simp [allRolesMsg, hc] at hm
  | parts cs =>
    cases hcol : collectImgs urlH img_tok ([], "") cs with
    | none => simp [allRolesMsg, hc, hcol] at hm
    | some acc =>
      cases htl : textLoopFallible (piece m.role acc.2) cs with
      | none => simp [allRolesMsg, hc, hcol, htl] at hm
      | some s =>
        simp [allRolesMsg, hc, hcol, htl] at hm
        have himgs : acc.1 = [] ++ (contentImageURLs cs).map urlH :=
          collectImgs_images urlH img_tok cs ([], "") acc hcol
        simp only [msgImageURLs, hc]
        rw [← hm.1]
        simpa using himgs

/-- A successful walk returns exactly the image resolutions of the walked
messages, in first-encounter order, whenever non-user messages carry no image
parts. -/
theorem walkMsgs_images {β : Type} (urlH : String → β)
    (msgFn : Message → Option (List β × String)) (hOK : MsgImagesOK urlH msgFn) :
    ∀ (ms : List Message) (imgs : List β) (p : String),
      walkMsgs msgFn ms = some (imgs, p) →
      (∀ m ∈ ms, m.role ≠ "user" → msgImageParts m = []) →
      imgs = (allImageURLs ms).map urlH := by
  intro ms
  induction ms with
  | nil =>
    intro imgs p h _
    simp only [walkMsgs, Option.some.injEq, Prod.mk.injEq] at h
    simp [allImageURLs, ← h.1]
  | cons m rest ih =>
    intro imgs p h hfree
    simp only [walkMsgs] at h
    cases hm : msgFn m with
    | none => rw [hm] at h; simp at h
    | some r1 =>
      cases hrest : walkMsgs msgFn rest with
      | none => rw [hm, hrest] at h; simp at h
      | some r2 =>
        rw [hm, hrest] at h
        obtain ⟨i1, p1⟩ := r1
        obtain ⟨i2, p2⟩ := r2
        simp only [Option.some.injEq, Prod.mk.injEq] at h
        have h1 : i1 = (msgImageURLs m).map urlH :=
          hOK m i1 p1 hm (hfree m (List.mem_cons_self m rest))
        have h2 : i2 = (allImageURLs rest).map urlH :=
          ih i2 p2 hrest (fun x hx => hfree x (List.mem_cons_of_mem m hx))
        rw [← h.1, h1, h2]
        simp [allImageURLs]

/-- A successful trailing-assistant extraction leaves exactly the message list
the spec calls the messages remaining after extraction. -/
theorem extractTrailingAssistant_rest (ms : List Message) (g : Option String)
    (rest : List Message) (h : extractTrailingAssistant ms = some (g, rest)) :
    rest = messagesAfterExtraction ms := by
  cases hl : ms.getLast? with
  | none =>
    simp only [extractTrailingAssistant, hl, Option.some.injEq, Prod.mk.injEq] at h
    simp only [messagesAfterExtraction, hl]
    exact h.2.symm
  | some m =>
    simp only [extractTrailingAssistant, hl] at h
    simp only [messagesAfterExtraction, hl]
    by_cases ha : m.role = "assistant"
    · rw [if_pos ha] at h
      rw [if_pos ha]
      cases hf : firstContentText m with
      | none => rw [hf] at h; cases h
      | some t =>
        rw [hf] at h
        simp only [Option.some.injEq, Prod.mk.injEq] at h
        exact h.2.symm
    · rw [if_neg ha] at h
      rw [if_neg ha]
      simp only [Option.some.injEq, Prod.mk.injEq] at h
      exact h.2.symm

/-- Every member of the remaining message list is a member of the original. -/
theorem messagesAfterExtraction_subset (ms : List Message) :
    ∀ m ∈ messagesAfterExtraction ms, m ∈ ms := by
  intro m hm
  cases hl : ms.getLast? with
  | none => simpa only [messagesAfterExtraction, hl] using hm
  | some x =>
    simp only [messagesAfterExtraction, hl] at hm
    by_cases ha : x.role = "assistant"
    · rw [if_pos ha] at hm
      exact (List.dropLast_sublist ms).subset hm
    · rw [if_neg ha] at hm
      exact hm

/-- When the last message is an assistant message with no image parts, dropping
it does not change the image urls of the list. -/
theorem allImageURLs_messagesAfterExtraction (ms : List Message)
    (hfree : ∀ m ∈ ms, m.role ≠ "user" → msgImageParts m = [])
    (hnoassist : ∀ m ∈ ms, m.role = "assistant" → m.role ≠ "user") :
    allImageURLs (messagesAfterExtraction ms) = allImageURLs ms := by
  cases hl : ms.getLast? with
  | none => simp only [messagesAfterExtraction, hl]
  | some m =>
    simp only [messagesAfterExtraction, hl]
    by_cases ha : m.role = "assistant"
    · rw [if_pos ha]
      have hne : ms ≠ [] := by
        intro hnil
        rw [hnil] at hl
        cases hl
      have hmem : m ∈ ms := by
        have := List.getLast?_eq_getLast ms hne
        rw [this] at hl
        simp only [Option.some.injEq] at hl
        rw [← hl]
        exact List.getLast_mem hne
      have hurls : msgImageURLs m = [] :=
        msgImageURLs_eq_nil m (hfree m hmem (hnoassist m hmem ha))
      conv_rhs => rw [← List.dropLast_append_getLast hne]
      unfold allImageURLs
      rw [List.flatMap_append]
      have hlast : ms.getLast hne = m := by
        have := List.getLast?_eq_getLast ms hne
        rw [this] at hl
        simpa using hl
      simp [hlast, hurls]
    · rw [if_neg ha]

/-- The role string "assistant" is never the role string "user". -/
theorem assistant_ne_user :
    ∀ m : Message, m.role = "assistant" → m.role ≠ "user" := by
  intro m h
  rw [h]
  decide

/-- Images returned by a popping format function match the image urls of the
messages remaining after extraction, in first-encounter order. -/
theorem runPopWalk_images {β : Type} (urlH : String → β)
    (msgFn : Message → Option (List β × String)) (hOK : MsgImagesOK urlH msgFn)
    (base pre : String) (ms : List Message) (imgs : List β) (p : String)
    (post : List Message)
    (hfree : ∀ m ∈ ms, m.role ≠ "user" → msgImageParts m = [])
    (h : runPopWalk msgFn base pre ms = some (imgs, p, post)) :
    imgs = (allImageURLs (messagesAfterExtraction ms)).map urlH := by
  cases hex : extractTrailingAssistant ms with
  | none =>
    simp only [runPopWalk, hex] at h
    cases h
  | some gr =>
    obtain ⟨g, rest⟩ := gr
    simp only [runPopWalk, hex] at h
    cases hw : walkMsgs msgFn rest with
    | none => rw [hw] at h; cases h
    | some ip =>
      obtain ⟨i0, p0⟩ := ip
      rw [hw] at h
      simp only [Option.some.injEq, Prod.mk.injEq] at h
      have hrest := extractTrailingAssistant_rest ms g rest hex
      have hfree2 : ∀ m ∈ rest, m.role ≠ "user" → msgImageParts m = [] := by
        intro m hm
        exact hfree m (messagesAfterExtraction_subset ms m (hrest ▸ hm))
      have := walkMsgs_images urlH msgFn hOK rest i0 p0 hw hfree2
      rw [← h.1, this, hrest]

/-- Images returned by a non-popping format function also match: the code walks
every message, and under the user-only hypothesis a trailing assistant message
holds no images, so the walked list and the list after extraction agree. -/
theorem runWalk_images {β : Type} (urlH : String → β)
    (msgFn : Message → Option (List β × String)) (hOK : MsgImagesOK urlH msgFn)
    (ms : List Message) (imgs : List β) (p : String) (post : List Message)
    (hfree : ∀ m ∈ ms, m.role ≠ "user" → msgImageParts m = [])
    (h : runWalk msgFn ms = some (imgs, p, post)) :
    imgs = (allImageURLs (messagesAfterExtraction ms)).map urlH := by
  unfold runWalk at h
  cases hw : walkMsgs msgFn ms with
  | none => rw [hw] at h; cases h
  | some ip =>
    obtain ⟨i0, p0⟩ := ip
    rw [hw] at h
    simp only [Option.map, Option.some.injEq, Prod.mk.injEq] at h
    have := walkMsgs_images urlH msgFn hOK ms i0 p0 hw hfree
    rw [← h.1, this,
      allImageURLs_messagesAfterExtraction ms hfree (fun m _ => assistant_ne_user m)]

theorem florenceWalk_images {β : Type} (urlH : String → β) :
    ∀ (ms : List Message) (imgs0 : List β) (p0 : String) (imgs : List β) (p : String),
      florenceWalk urlH imgs0 p0 ms = some (imgs, p) →
      imgs = imgs0 ++ (allImageURLs ms).map urlH := by
  intro ms
  induction ms with
  | nil =>
    intro imgs0 p0 imgs p h
    simp only [florenceWalk, Option.some.injEq, Prod.mk.injEq] at h
    simp [allImageURLs, ← h.1]
  | cons m rest ih =>
    intro imgs0 p0 imgs p h
    cases hc : m.content with
    | str s => simp [florenceWalk, hc] at h
    | parts cs =>
      simp only [florenceWalk, hc] at h
      cases hfi : florenceImgs urlH imgs0 cs with
      | none => rw [hfi] at h; cases h
      | some imgs1 =>
        rw [hfi] at h
        have h1 : imgs1 = imgs0 ++ (contentImageURLs cs).map urlH :=
          florenceImgs_images urlH cs imgs0 imgs1 hfi
        have h2 := ih imgs1 (florenceText p0 cs) imgs p h
        rw [h2, h1]
        simp [allImageURLs, msgImageURLs, hc, List.append_assoc]

/-- The image-faithfulness property of a format function: whenever every image
part sits in a user-role message, a successful call returns exactly the
resolutions of the image urls of the messages remaining after trailing-assistant
extraction, in first-encounter order. -/
def ImagesFaithful
    (f : ∀ {β : Type}, (String → β) → List Message → Option (List β × String × List Message)) :
    Prop :=
  ∀ (β : Type) (urlH : String → β) (ms : List Message) (imgs : List β)
    (p : String) (post : List Message),
    (∀ m ∈ ms, m.role ≠ "user" → msgImageParts m = []) →
    f urlH ms = some (imgs, p, post) →
    imgs = (allImageURLs (messagesAfterExtraction ms)).map urlH

/-- C2 counterexample, in two parts.  First, chatml only collects images from
user messages: a non-trailing assistant message holding one image part is
walked, its image part counts, but no image is resolved.  Second, pixtral pops
a trailing user message before the walk and never resolves its images: one
image part, zero images returned. -/
theorem images_match_counterexample :
    (allImageParts (messagesAfterExtraction
      [{ role := "assistant", content := .parts
          [{ type := .image_url, image_url := some { url := "u" } }] },
       { role := "user", content := .parts [{ type := .text, text := some "hi" }] }])).length = 1 ∧
    chatml_prompt_from_messages (fun s => s)
      [{ role := "assistant", content := .parts
          [{ type := .image_url, image_url := some { url := "u" } }] },
       { role := "user", content := .parts [{ type := .text, text := some "hi" }] }] =
      some (([] : List String), "<|im_start|>user\nhi<|im_end|><|im_start|>assistant\n",
        [{ role := "assistant", content := .parts
            [{ type := .image_url, image_url := some { url := "u" } }] },
         { role := "user", content := .parts [{ type := .text, text := some "hi" }] }]) ∧
    (allImageParts (messagesAfterExtraction
      [{ role := "user", content := .parts
          [{ type := .text, text := some "hi" },
           { type := .image_url, image_url := some { url := "u" } }] }])).length = 1 ∧
    pixtral_prompt_from_messages (fun s => s)
      [{ role := "user", content := .parts
          [{ type := .text, text := some "hi" },
           { type := .image_url, image_url := some { url := "u" } }] }] =
      some (([] : List String), "<s>", []) := by
  refine ⟨by decide, by decide, by decide, by decide⟩

/-- C2 amended: for every registry format function except pixtral, on message
lists whose image parts all sit in user-role messages, the returned images are
exactly the resolutions of the image parts of the messages remaining after
trailing-assistant extraction, in first-encounter order (so their number equals
the number of image parts). -/
theorem images_match_parts_in_user_messages :
    ImagesFaithful @chatml_prompt_from_messages ∧
    ImagesFaithful @falcon_prompt_from_messages ∧
    ImagesFaithful @florence_prompt_from_messages ∧
    ImagesFaithful @fuyu_prompt_from_messages ∧
    ImagesFaithful @gemma_prompt_from_messages ∧
    ImagesFaithful @glm4v_prompt_from_messages ∧
    ImagesFaithful @llama2_prompt_from_messages ∧
    ImagesFaithful @llama3_prompt_from_messages ∧
    ImagesFaithful @phi15_prompt_from_messages ∧
    ImagesFaithful @phi3_prompt_from_messages ∧
    ImagesFaithful @phintern_prompt_from_messages ∧
    ImagesFaithful @vicuna_prompt_from_messages ∧
    ImagesFaithful @vicuna0_prompt_from_messages := by
  refine ⟨?_, ?_, ?_, ?_, ?_, ?_, ?_, ?_, ?_, ?_, ?_, ?_, ?_⟩
  · intro β urlH ms imgs p post hfree hf
    exact runPopWalk_images urlH _ (roleGatedMsg_imagesOK urlH _ _ _ _) _ _ ms imgs p post hfree hf
  · intro β urlH ms imgs p post hfree hf
    exact runPopWalk_images urlH _ (roleGatedMsg_imagesOK urlH _ _ _ _) _ _ ms imgs p post hfree hf
  · intro β urlH ms imgs p post hfree hf
    unfold florence_prompt_from_messages at hf
    cases hw : florenceWalk urlH [] "<MORE_DETAILED_CAPTION>" ms with
    | none => rw [hw] at hf; cases hf
    | some ip =>
      rw [hw] at hf
      simp only [Option.map, Option.some.injEq, Prod.mk.injEq] at hf
      have := florenceWalk_images urlH ms [] "<MORE_DETAILED_CAPTION>" ip.1 ip.2 (by
        rw [hw])
      rw [← hf.1, this,
        allImageURLs_messagesAfterExtraction ms hfree (fun m _ => assistant_ne_user m)]
      simp
  · intro β urlH ms imgs p post hfree hf
    exact runWalk_images urlH _ (qaMsg_imagesOK urlH _ _ _ _) ms imgs p post hfree hf
  · intro β urlH ms imgs p post hfree hf
    exact runPopWalk_images urlH _ (roleGatedMsg_imagesOK urlH _ _ _ _) _ _ ms imgs p post hfree hf
  · intro β urlH ms imgs p post hfree hf
    exact runPopWalk_images urlH _ (allRolesMsg_imagesOK urlH _ _) _ _ ms imgs p post hfree hf
  · intro β urlH ms imgs p post hfree hf
    exact runWalk_images urlH _ (roleGatedMsg_imagesOK urlH _ _ _ _) ms imgs p post hfree hf
  · intro β urlH ms imgs p post hfree hf
    exact runPopWalk_images urlH _ (allRolesMsg_imagesOK urlH _ _) _ _ ms imgs p post hfree hf
  · intro β urlH ms imgs p post hfree hf
    exact runPopWalk_images urlH _ (qaMsg_imagesOK urlH _ _ _ _) _ _ ms imgs p post hfree hf
  · intro β urlH ms imgs p post hfree hf
    exact runPopWalk_images urlH _ (allRolesMsg_imagesOK urlH _ _) _ _ ms imgs p post hfree hf
  · intro β urlH ms imgs p post hfree hf
    exact runPopWalk_images urlH _ (roleGatedMsg_imagesOK urlH _ _ _ _) _ _ ms imgs p post hfree hf
  · intro β urlH ms imgs p post hfree hf
    exact runPopWalk_images urlH _ (roleGatedMsg_imagesOK urlH _ _ _ _) _ _ ms imgs p post hfree hf
  · intro β urlH ms imgs p post hfree hf
    exact runPopWalk_images urlH _ (roleGatedMsg_imagesOK urlH _ _ _ _) _ _ ms imgs p post hfree hf

/-- Witness for C2: chatml on one user message with one image and one text part
resolves exactly the one image url, matching the image parts of the remaining
messages. -/
theorem images_match_parts_in_user_messages_witness :
    (["u"] : List String) =
      (allImageURLs (messagesAfterExtraction
        [{ role := "user", content := .parts
            [{ type := .image_url, image_url := some { url := "u" } },
             { type := .text, text := some "q" }] }])).map (fun s => s) := by
  exact images_match_parts_in_user_messages.1 String (fun s => s)
    [{ role := "user", content := .parts
        [{ type := .image_url, image_url := some { url := "u" } },
         { type := .text, text := some "q" }] }]
    ["u"] "<|im_start|>user\n<image>\nq<|im_end|><|im_start|>assistant\n"
    [{ role := "user", content := .parts
        [{ type := .image_url, image_url := some { url := "u" } },
         { type := .text, text := some "q" }] }]
    (by decide) (by decide)

/-- For a popping format function that returns successfully on a list ending in
an assistant message, the callers list after the call is the original list
without its last element. -/
theorem runPopWalk_post {β : Type} (msgFn : Message → Option (List β × String))
    (base pre : String) (ms : List Message) (m : Message) (imgs : List β)
    (p : String) (post : List Message)
    (hl : ms.getLast? = some m) (ha : m.role = "assistant")
    (h : runPopWalk msgFn base pre ms = some (imgs, p, post)) :
    post = ms.dropLast ∧ post ≠ ms := by
  have hne : ms ≠ [] := by
    intro hn
    rw [hn] at hl
    cases hl
  cases hf : firstContentText m with
  | none =>
    have hex : extractTrailingAssistant ms = none := by
      simp only [extractTrailingAssistant, hl]
      rw [if_pos ha, hf]
    simp only [runPopWalk, hex] at h
    cases h
  | some t =>
    have hex : extractTrailingAssistant ms = some (some t, ms.dropLast) := by
      simp only [extractTrailingAssistant, hl]
      rw [if_pos ha, hf]
    simp only [runPopWalk, hex] at h
    cases hw : walkMsgs msgFn ms.dropLast with
    | none => rw [hw] at h; cases h
    | some ip =>
      obtain ⟨i0, p0⟩ := ip
      rw [hw] at h
      simp only [Option.some.injEq, Prod.mk.injEq] at h
      refine ⟨h.2.2.symm, ?_⟩
      rw [h.2.2.symm]
      intro heq
      have hlen := congrArg List.length heq
      rw [List.length_dropLast] at hlen
      have hpos : 0 < ms.length := List.length_pos.mpr hne
      omega

/-- The second pixtral pop leaves either the same list or that list without its
last element. -/
theorem popTrailingUser_rest (ms : List Message) (l : Option (Option String))
    (rest : List Message) (h : popTrailingUser ms = some (l, rest)) :
    rest = ms ∨ rest = ms.dropLast := by
  cases hl : ms.getLast? with
  | none =>
    simp only [popTrailingUser, hl, Option.some.injEq, Prod.mk.injEq] at h
    exact Or.inl h.2.symm
  | some m =>
    simp only [popTrailingUser, hl] at h
    by_cases hu : m.role = "user"
    · rw [if_pos hu] at h
      cases hc : m.content with
      | str s => rw [hc] at h; cases h
      | parts cs =>
        cases cs with
        | nil => rw [hc] at h; cases h
        | cons c rest2 =>
          rw [hc] at h
          simp only [Option.some.injEq, Prod.mk.injEq] at h
          exact Or.inr h.2.symm
    · rw [if_neg hu] at h
      simp only [Option.some.injEq, Prod.mk.injEq] at h
      exact Or.inl h.2.symm

/-- The in-place mutation property of a popping format function: a successful
call on a list whose last message has role assistant leaves the callers list
equal to the original without that last message, so the original sequence is
changed. -/
def PopMutatesInPlace
    (f : ∀ {β : Type}, (String → β) → List Message → Option (List β × String × List Message)) :
    Prop :=
  ∀ (β : Type) (urlH : String → β) (ms : List Message) (m : Message)
    (imgs : List β) (p : String) (post : List Message),
    ms.getLast? = some m → m.role = "assistant" →
    f urlH ms = some (imgs, p, post) →
    post = ms.dropLast ∧ post ≠ ms

/-- C3 counterexample: chatml on a user message followed by a trailing assistant
message returns with the callers list reduced to the user message alone; the
original two-message sequence is not preserved. -/
theorem trailing_pop_mutation_counterexample :
    chatml_prompt_from_messages (fun s => s)
      [{ role := "user", content := .parts [{ type := .text, text := some "hi" }] },
       { role := "assistant", content := .parts [{ type := .text, text := some "partial" }] }] =
      some (([] : List String),
        "<|im_start|>user\nhi<|im_end|><|im_start|>assistant\npartial",
        [{ role := "user", content := .parts [{ type := .text, text := some "hi" }] }]) ∧
    ([{ role := "user", content := .parts [{ type := .text, text := some "hi" }] }] : List Message) ≠
      [{ role := "user", content := .parts [{ type := .text, text := some "hi" }] },
       { role := "assistant", content := .parts [{ type := .text, text := some "partial" }] }] := by
  exact ⟨by decide, by decide⟩

/-- C3 amended: every popping format function mutates the callers list in place:
after a successful call on a list ending in an assistant message the caller
observes the original sequence without its last element (and pixtral may pop a
then-trailing user message as well, leaving a list at least one element
shorter); the original sequence is never preserved. -/
theorem trailing_pop_mutates_caller_list :
    PopMutatesInPlace @phi15_prompt_from_messages ∧
    PopMutatesInPlace @vicuna0_prompt_from_messages ∧
    PopMutatesInPlace @vicuna_prompt_from_messages ∧
    PopMutatesInPlace @llama3_prompt_from_messages ∧
    PopMutatesInPlace @chatml_prompt_from_messages ∧
    PopMutatesInPlace @gemma_prompt_from_messages ∧
    PopMutatesInPlace @phi3_prompt_from_messages ∧
    PopMutatesInPlace @phintern_prompt_from_messages ∧
    PopMutatesInPlace @falcon_prompt_from_messages ∧
    PopMutatesInPlace @glm4v_prompt_from_messages ∧
    (∀ (β : Type) (urlH : String → β) (ms : List Message) (m : Message)
      (imgs : List β) (p : String) (post : List Message),
      ms.getLast? = some m → m.role = "assistant" →
      pixtral_prompt_from_messages urlH ms = some (imgs, p, post) →
      (post = ms.dropLast ∨ post = ms.dropLast.dropLast) ∧ post ≠ ms) := by
  refine ⟨?_, ?_, ?_, ?_, ?_, ?_, ?_, ?_, ?_, ?_, ?_⟩
  · intro β urlH ms m imgs p post hl ha hf
    exact runPopWalk_post _ _ _ ms m imgs p post hl ha hf
  · intro β urlH ms m imgs p post hl ha hf
    exact runPopWalk_post _ _ _ ms m imgs p post hl ha hf
  · intro β urlH ms m imgs p post hl ha hf
    exact runPopWalk_post _ _ _ ms m imgs p post hl ha hf
  · intro β urlH ms m imgs p post hl ha hf
    exact runPopWalk_post _ _ _ ms m imgs p post hl ha hf
  · intro β urlH ms m imgs p post hl ha hf
    exact runPopWalk_post _ _ _ ms m imgs p post hl ha hf
  · intro β urlH ms m imgs p post hl ha hf
    exact runPopWalk_post _ _ _ ms m imgs p post hl ha hf
  · intro β urlH ms m imgs p post hl ha hf
    exact runPopWalk_post _ _ _ ms m imgs p post hl ha hf
  · intro β urlH ms m imgs p post hl ha hf
    exact runPopWalk_post _ _ _ ms m imgs p post hl ha hf
  · intro β urlH ms m imgs p post hl ha hf
    exact runPopWalk_post _ _ _ ms m imgs p post hl ha hf
  · intro β urlH ms m imgs p post hl ha hf
    exact runPopWalk_post _ _ _ ms m imgs p post hl ha hf
  · intro β urlH ms m imgs p post hl ha hf
    have hne : ms ≠ [] := by
      intro hn
      rw [hn] at hl
      cases hl
    cases hft : firstContentText m with
    | none =>
      have hex : extractTrailingAssistant ms = none := by
        simp only [extractTrailingAssistant, hl]
        rw [if_pos ha, hft]
      simp only [pixtral_prompt_from_messages, hex] at hf
      cases hf
    | some t =>
      have hex : extractTrailingAssistant ms = some (some t, ms.dropLast) := by
        simp only [extractTrailingAssistant, hl]
        rw [if_pos ha, hft]
      simp only [pixtral_prompt_from_messages, hex] at hf
      cases hpop : popTrailingUser ms.dropLast with
      | none => rw [hpop] at hf; cases hf
      | some lr =>
        obtain ⟨lastOpt, rest2⟩ := lr
        simp only [hpop] at hf
        cases hw : walkMsgs (pixtralMsg urlH) rest2 with
        | none => simp only [hw] at hf; cases hf
        | some ip =>
          obtain ⟨i0, p0⟩ := ip
          simp only [hw] at hf
          have hrest2 : rest2 = ms.dropLast ∨ rest2 = ms.dropLast.dropLast :=
            popTrailingUser_rest ms.dropLast lastOpt rest2 hpop
          have hlen2 : rest2.length ≤ ms.length - 1 := by
            cases hrest2 with
            | inl hh => rw [hh, List.length_dropLast]
            | inr hh =>
              rw [hh, List.length_dropLast, List.length_dropLast]
              omega
          have hpost : post = rest2 := by
            cases lastOpt with
            | none =>
              simp only [Option.some.injEq, Prod.mk.injEq] at hf
              exact hf.2.2.symm
            | some l0 =>
              cases l0 with
              | none => cases hf
              | some l1 =>
                simp only [Option.some.injEq, Prod.mk.injEq] at hf
                exact hf.2.2.symm
          have hpos : 0 < ms.length := List.length_pos.mpr hne
          refine ⟨hpost ▸ hrest2, ?_⟩
          intro heq
          have hleq := congrArg List.length heq
          rw [hpost] at hleq
          omega

/-- Witness for C3: vicuna on the single trailing assistant message "partial"
pops it, leaving the caller with the empty list, which differs from the
original. -/
theorem trailing_pop_mutates_caller_list_witness :
    ([] : List Message) =
      ([{ role := "assistant", content := .parts [{ type := .text, text := some "partial" }] }] : List Message).dropLast ∧
    ([] : List Message) ≠
      [{ role := "assistant", content := .parts [{ type := .text, text := some "partial" }] }] := by
  exact trailing_pop_mutates_caller_list.2.2.1 String (fun s => s)
    [{ role := "assistant", content := .parts [{ type := .text, text := some "partial" }] }]
    { role := "assistant", content := .parts [{ type := .text, text := some "partial" }] }
    [] "ASSISTANT:partial" [] (by decide) rfl (by decide)

/-- A popping skeleton fails outright when the trailing assistant message has no
readable first content text. -/
theorem runPopWalk_seed_none {β : Type} (msgFn : Message → Option (List β × String))
    (base pre : String) (ms : List Message) (m : Message)
    (hl : ms.getLast? = some m) (ha : m.role = "assistant")
    (hf : firstContentText m = none) :
    runPopWalk msgFn base pre ms = none := by
  have hex : extractTrailingAssistant ms = none := by
    simp only [extractTrailingAssistant, hl]
    rw [if_pos ha, hf]
  simp only [runPopWalk, hex]

/-- A successful popping skeleton call on a trailing assistant message whose
first content text is `t` produces a prompt ending in the generation base
followed by exactly `t`. -/
theorem runPopWalk_seed_suffix {β : Type} (msgFn : Message → Option (List β × String))
    (base pre : String) (ms : List Message) (m : Message) (t : String)
    (imgs : List β) (p : String) (post : List Message)
    (hl : ms.getLast? = some m) (ha : m.role = "assistant")
    (hft : firstContentText m = some t)
    (h : runPopWalk msgFn base pre ms = some (imgs, p, post)) :
    ∃ w, p = w ++ (base ++ t) := by
  have hex : extractTrailingAssistant ms = some (some t, ms.dropLast) := by
    simp only [extractTrailingAssistant, hl]
    rw [if_pos ha, hft]
  simp only [runPopWalk, hex] at h
  cases hw : walkMsgs msgFn ms.dropLast with
  | none => rw [hw] at h; cases h
  | some ip =>
    obtain ⟨i0, p0⟩ := ip
    rw [hw] at h
    simp only [Option.some.injEq, Prod.mk.injEq, Option.getD_some] at h
    exact ⟨pre ++ p0, h.2.1.symm⟩

/-- The trailing-assistant seed behaviour of a popping format function with
generation base `base`: on a list ending in an assistant message, an unreadable
first content text (no first part, bare-string content, or a None text - in
particular a well-formed image_url first part, whose text field is None) makes
the call fail, and on success the compiled prompt ends in `base` followed by
exactly that first content text. -/
def TrailingSeedBehavior
    (f : ∀ {β : Type}, (String → β) → List Message → Option (List β × String × List Message))
    (base : String) : Prop :=
  ∀ (β : Type) (urlH : String → β) (ms : List Message) (m : Message),
    ms.getLast? = some m → m.role = "assistant" →
    ((firstContentText m = none → f urlH ms = none) ∧
     (∀ (t : String) (imgs : List β) (p : String) (post : List Message),
        firstContentText m = some t → f urlH ms = some (imgs, p, post) →
        ∃ w, p = w ++ (base ++ t)))

/-- C10: every popping format function reads exactly content[0].text of a
trailing assistant message into its continuation marker; when that text is
unreadable (for example the first part is an image_url part, whose text field
is None) the function raises instead of producing a prompt. -/
theorem trailing_seed_requires_first_text :
    TrailingSeedBehavior @phi15_prompt_from_messages "Answer:" ∧
    TrailingSeedBehavior @vicuna0_prompt_from_messages "### Assistant:" ∧
    TrailingSeedBehavior @vicuna_prompt_from_messages "ASSISTANT:" ∧
    TrailingSeedBehavior @llama3_prompt_from_messages "<|start_header_id|>assistant<|end_header_id|>\n\n" ∧
    TrailingSeedBehavior @chatml_prompt_from_messages "<|im_start|>assistant\n" ∧
    TrailingSeedBehavior @gemma_prompt_from_messages "<start_of_turn>model\n" ∧
    TrailingSeedBehavior @phi3_prompt_from_messages "<|assistant|>\n" ∧
    TrailingSeedBehavior @phintern_prompt_from_messages "<s><|assistant|>\n" ∧
    TrailingSeedBehavior @falcon_prompt_from_messages "Falcon:" ∧
    TrailingSeedBehavior @glm4v_prompt_from_messages "<|assistant|>\n" ∧
    TrailingSeedBehavior @pixtral_prompt_from_messages "" := by
  refine ⟨?_, ?_, ?_, ?_, ?_, ?_, ?_, ?_, ?_, ?_, ?_⟩
  · intro β urlH ms m hl ha
    exact ⟨fun hf => runPopWalk_seed_none _ _ _ ms m hl ha hf,
      fun t imgs p post hft h => runPopWalk_seed_suffix _ _ _ ms m t imgs p post hl ha hft h⟩
  · intro β urlH ms m hl ha
    exact ⟨fun hf => runPopWalk_seed_none _ _ _ ms m hl ha hf,
      fun t imgs p post hft h => runPopWalk_seed_suffix _ _ _ ms m t imgs p post hl ha hft h⟩
  · intro β urlH ms m hl ha
    exact ⟨fun hf => runPopWalk_seed_none _ _ _ ms m hl ha hf,
      fun t imgs p post hft h => runPopWalk_seed_suffix _ _ _ ms m t imgs p post hl ha hft h⟩
  · intro β urlH ms m hl ha
    exact ⟨fun hf => runPopWalk_seed_none _ _ _ ms m hl ha hf,
      fun t imgs p post hft h => runPopWalk_seed_suffix _ _ _ ms m t imgs p post hl ha hft h⟩
  · intro β urlH ms m hl ha
    exact ⟨fun hf => runPopWalk_seed_none _ _ _ ms m hl ha hf,
      fun t imgs p post hft h => runPopWalk_seed_suffix _ _ _ ms m t imgs p post hl ha hft h⟩
  · intro β urlH ms m hl ha
    exact ⟨fun hf => runPopWalk_seed_none _ _ _ ms m hl ha hf,
      fun t imgs p post hft h => runPopWalk_seed_suffix _ _ _ ms m t imgs p post hl ha hft h⟩
  · intro β urlH ms m hl ha
    exact ⟨fun hf => runPopWalk_seed_none _ _ _ ms m hl ha hf,
      fun t imgs p post hft h => runPopWalk_seed_suffix _ _ _ ms m t imgs p post hl ha hft h⟩
  · intro β urlH ms m hl ha
    exact ⟨fun hf => runPopWalk_seed_none _ _ _ ms m hl ha hf,
      fun t imgs p post hft h => runPopWalk_seed_suffix _ _ _ ms m t imgs p post hl ha hft h⟩
  · intro β urlH ms m hl ha
    exact ⟨fun hf => runPopWalk_seed_none _ _ _ ms m hl ha hf,
      fun t imgs p post hft h => runPopWalk_seed_suffix _ _ _ ms m t imgs p post hl ha hft h⟩
  · intro β urlH ms m hl ha
    exact ⟨fun hf => runPopWalk_seed_none _ _ _ ms m hl ha hf,
      fun t imgs p post hft h => runPopWalk_seed_suffix _ _ _ ms m t imgs p post hl ha hft h⟩
  · intro β urlH ms m hl ha
    constructor
    · intro hft
      have hex : extractTrailingAssistant ms = none := by
        simp only [extractTrailingAssistant, hl]
        rw [if_pos ha, hft]
      simp only [pixtral_prompt_from_messages, hex]
    · intro t imgs p post hft h
      have hex : extractTrailingAssistant ms = some (some t, ms.dropLast) := by
        simp only [extractTrailingAssistant, hl]
        rw [if_pos ha, hft]
      simp only [pixtral_prompt_from_messages, hex] at h
      cases hpop : popTrailingUser ms.dropLast with
      | none => rw [hpop] at h; cases h
      | some lr =>
        obtain ⟨lastOpt, rest2⟩ := lr
        simp only [hpop] at h
        cases hw : walkMsgs (pixtralMsg urlH) rest2 with
        | none => simp only [hw] at h; cases h
        | some ip =>
          obtain ⟨i0, p0⟩ := ip
          simp only [hw] at h
          cases lastOpt with
          | none =>
            simp only [Option.some.injEq, Prod.mk.injEq, Option.getD_some] at h
            exact ⟨"<s>" ++ p0, h.2.1.symm⟩
          | some l0 =>
            cases l0 with
            | none => cases h
            | some l1 =>
              simp only [Option.some.injEq, Prod.mk.injEq, Option.getD_some] at h
              exact ⟨"<s>" ++ p0, h.2.1.symm⟩

/-- Witness for C10: chatml fails on a trailing assistant message whose first
part is an image_url part (text field None), and on the trailing assistant text
"partial" its compiled prompt ends with the assistant opening followed by
exactly "partial". -/
theorem trailing_seed_requires_first_text_witness :
    chatml_prompt_from_messages (fun s => s)
      [{ role := "assistant", content := .parts
          [{ type := .image_url, image_url := some { url := "u" } }] }] = none ∧
    (∃ w, "<|im_start|>user\nhi<|im_end|><|im_start|>assistant\npartial" =
      w ++ ("<|im_start|>assistant\n" ++ "partial")) := by
  constructor
  · exact (trailing_seed_requires_first_text.2.2.2.2.1 String (fun s => s)
      [{ role := "assistant", content := .parts
          [{ type := .image_url, image_url := some { url := "u" } }] }]
      { role := "assistant", content := .parts
          [{ type := .image_url, image_url := some { url := "u" } }] }
      (by decide) rfl).1 rfl
  · exact (trailing_seed_requires_first_text.2.2.2.2.1 String (fun s => s)
      [{ role := "user", content := .parts [{ type := .text, text := some "hi" }] },
       { role := "assistant", content := .parts [{ type := .text, text := some "partial" }] }]
      { role := "assistant", content := .parts [{ type := .text, text := some "partial" }] }
      (by decide) rfl).2 "partial" []
      "<|im_start|>user\nhi<|im_end|><|im_start|>assistant\npartial"
      [{ role := "user", content := .parts [{ type := .text, text := some "hi" }] }]
      rfl (by decide)

end VisionQna
